import Mathlib

/-
Verification of the bmecat repository (BMEcat 1.2 reader/writer, Go).

The definitions below are a shallow embedding of the Go sources:
the two-pass streaming reader (reader.go, Reader.Do), the sequential
writer (writer.go, Writer.Do), the user-defined-extension codec
(user_defined_extensions.go), the temporal codec (date_time.go), and
the relevant record types. Go maps are modelled as insertion-ordered
association lists, Go channels as lists, Go errors as an inductive
type whose wrap constructors carry the data that the source formats
into the wrap message via errors.Wrapf.
-/

namespace Bmecat

/-- Header record (header.go). Only the fields relevant to the reader
and writer behaviour are carried; the four derived counters are the
ones overwritten by the second reader pass. -/
structure Header where
  generatorInfo : String := ""
  numberOfArticles : Nat := 0
  numberOfCatalogGroups : Nat := 0
  numberOfClassificationGroups : Nat := 0
  numberOfArticleToCatalogGroupMaps : Nat := 0
deriving DecidableEq, Repr

/-- CatalogGroup record (catalog_group.go, element CATALOG_STRUCTURE). -/
structure CatalogGroup where
  typ : String := ""
  id : String := ""
  name : String := ""
  description : String := ""
  parentID : Option String := none
  order : Int := 0
  keywords : List String := []
deriving DecidableEq, Repr

/-- ClassificationGroup record (classification_group.go). -/
structure ClassificationGroup where
  typ : String := ""
  level : Option Int := none
  id : String := ""
  name : String := ""
  description : String := ""
  synonyms : List String := []
  parentID : String := ""
deriving DecidableEq, Repr

/-- DateTime record (date_time.go): a type tag plus date, time and
timezone strings as they appear in the XML. -/
structure DateTime where
  typ : String := ""
  dateString : String := ""
  timeString : String := ""
  timeZoneString : String := ""
deriving DecidableEq, Repr

/-- ArticlePriceDetails (article.go): the validity date records of one
price-detail block. Prices themselves are not needed by any claim. -/
structure ArticlePriceDetails where
  dates : List DateTime := []
  dailyPriceString : String := ""
deriving DecidableEq, Repr

/-- Article record (article.go). catalogGroupIDs is the derived,
reader-populated list (xml tag "-", so XML decoding always leaves it
empty). -/
structure Article where
  mode : String := ""
  supplierAID : String := ""
  priceDetails : List ArticlePriceDetails := []
  catalogGroupIDs : List String := []
deriving DecidableEq, Repr

/-- ArticleToCatalogGroupMap record (catalog_group.go, element
ARTICLE_TO_CATALOGGROUP_MAP): a two-field record. -/
structure ArticleToCatalogGroupMap where
  articleID : String := ""
  catalogGroupID : String := ""
deriving DecidableEq, Repr

/-- The data the source interpolates into one errors.Wrapf call in
Reader.Do, by call site. Offsets model dec.InputOffset at the wrap. -/
inductive WrapMsg where
  | decodeMap (offset : Nat)
  | decodeHeader (offset : Nat)
  | decodeCatalogGroup (offset : Nat)
  | decodeClassificationGroup (offset : Nat)
  | decodeArticle (lastAID : String) (offset : Nat)
  | handlerCatalogGroup (id : String) (offset : Nat)
  | handlerClassificationGroup (id : String) (offset : Nat)
  | handlerArticle (supplierAID : String) (offset : Nat)
deriving DecidableEq, Repr

/-- Go error values as Reader.Do manipulates them: io.EOF, a plain
underlying error, or a wrapped error produced by errors.Wrapf. -/
inductive GoErr where
  | eof
  | str (msg : String)
  | wrap (msg : WrapMsg) (cause : GoErr)
deriving DecidableEq, Repr

instance {ε α : Type} [DecidableEq ε] [DecidableEq α] : DecidableEq (Except ε α) := fun a b =>
  match a, b with
  | Except.ok x, Except.ok y =>
    if h : x = y then isTrue (by rw [h]) else isFalse (by intro hc; cases hc; exact h rfl)
  | Except.error x, Except.error y =>
    if h : x = y then isTrue (by rw [h]) else isFalse (by intro hc; cases hc; exact h rfl)
  | Except.ok _, Except.error _ => isFalse (by intro hc; cases hc)
  | Except.error _, Except.ok _ => isFalse (by intro hc; cases hc)

/-- One XML token of the document as the reader dispatches on it.
A start element of one of the five recognised names carries the result
of fully decoding its subtree (DecodeElement); every other token is
collapsed to other. tokErr is a tokenization failure of dec.Token. -/
inductive Tok where
  | startHeader (d : Except String Header)
  | startCatalogStructure (d : Except String CatalogGroup)
  | startClassificationGroup (d : Except String ClassificationGroup)
  | startArticle (d : Except String Article)
  | startMap (d : Except String ArticleToCatalogGroupMap)
  | other
  | tokErr (msg : String)
deriving DecidableEq

/-- One handler callback the reader performed, in order. -/
inductive Event where
  | header (h : Header)
  | catalogGroup (g : CatalogGroup)
  | classificationGroup (g : ClassificationGroup)
  | article (a : Article)
  | complete
deriving DecidableEq, Repr

/-- The capability set of a handler passed to Reader.Do: for each of the
five optional interfaces, whether the handler implements it, and the
error value its callback returns for a given record (none models a nil
return). HandleComplete returns nothing. -/
structure Handler where
  hasHeader : Bool := false
  headerRet : Header → Option GoErr := fun _ => none
  hasCatalogGroup : Bool := false
  catalogGroupRet : CatalogGroup → Option GoErr := fun _ => none
  hasClassificationGroup : Bool := false
  classificationGroupRet : ClassificationGroup → Option GoErr := fun _ => none
  hasArticle : Bool := false
  articleRet : Article → Option GoErr := fun _ => none
  hasComplete : Bool := false

/-- The artToCatalogGroup map of the Reader: a Go map from article ID
to the slice of catalog group IDs, modelled as an insertion-ordered
association list (one entry per distinct key). -/
def Index : Type := List (String × List String)

/-- Go map lookup m[aid]. -/
def indexLookup : List (String × List String) → String → Option (List String)
  | [], _ => none
  | (k, v) :: rest, aid => if k = aid then some v else indexLookup rest aid

/-- The map update of Reader.Do pass 1: if the key is present append
the group ID to its slice, otherwise create a singleton entry. -/
def indexInsert : List (String × List String) → String → String → List (String × List String)
  | [], aid, gid => [(aid, [gid])]
  | (k, v) :: rest, aid, gid =>
    if k = aid then (k, v ++ [gid]) :: rest else (k, v) :: indexInsert rest aid gid

/-- The mutable state of pass 1 of Reader.Do: the three counters and
the cross-reference index. -/
structure Pass1State where
  numArticles : Nat := 0
  numCatalogGroups : Nat := 0
  numClassifGroups : Nat := 0
  artToCatalogGroup : List (String × List String) := []

/-- Pass 1 of Reader.Do (reader.go): count ARTICLE, CATALOG_STRUCTURE
and CLASSIFICATION_GROUP start elements, fully decode every
ARTICLE_TO_CATALOGGROUP_MAP and append its group ID to the index entry
of its article ID. A token error is returned as is; a map decode error
is wrapped with the element name and byte offset. The offset argument
counts consumed tokens and stands in for dec.InputOffset. -/
def pass1 : Pass1State → Nat → List Tok → Except GoErr Pass1State
  | st, _, [] => Except.ok st
  | _, _, Tok.tokErr m :: _ => Except.error (GoErr.str m)
  | st, off, Tok.startArticle _ :: rest =>
    pass1 { st with numArticles := st.numArticles + 1 } (off + 1) rest
  | st, off, Tok.startCatalogStructure _ :: rest =>
    pass1 { st with numCatalogGroups := st.numCatalogGroups + 1 } (off + 1) rest
  | st, off, Tok.startClassificationGroup _ :: rest =>
    pass1 { st with numClassifGroups := st.numClassifGroups + 1 } (off + 1) rest
  | st, off, Tok.startMap d :: rest =>
    match d with
    | Except.error e => Except.error (GoErr.wrap (WrapMsg.decodeMap (off + 1)) (GoErr.str e))
    | Except.ok m =>
      pass1
        { st with artToCatalogGroup := indexInsert st.artToCatalogGroup m.articleID m.catalogGroupID }
        (off + 1) rest
  | st, off, Tok.startHeader _ :: rest => pass1 st (off + 1) rest
  | st, off, Tok.other :: rest => pass1 st (off + 1) rest

/-- The completion notification at the end of Reader.Do: one
HandleComplete call when the handler implements the capability. -/
def completionEvents (h : Handler) : List Event :=
  if h.hasComplete then [Event.complete] else []

/-- Prepend one handler invocation to the outcome of the rest of a
pass. -/
def consEv (ev : Event) (p : List Event × Option GoErr) : List Event × Option GoErr :=
  (ev :: p.1, p.2)

/-- Pass 2 of Reader.Do (reader.go): decode each recognised element and
dispatch to the handler capabilities. The header counters are
overwritten before the header handler runs; an io.EOF return from the
header handler stops the loop (and only io.EOF is inspected there);
article records are enriched from the index; the last successfully
decoded article ID is tracked for the ARTICLE decode error message.
Returns the handler invocations in order plus the return of Do. -/
def pass2 (h : Handler) (nA nC nG : Nat) (idx : List (String × List String)) :
    List Tok → Nat → String → List Event × Option GoErr
  | [], _, _ => (completionEvents h, none)
  | Tok.tokErr m :: _, _, _ => ([], some (GoErr.str m))
  | Tok.other :: rest, off, last => pass2 h nA nC nG idx rest (off + 1) last
  | Tok.startMap _ :: rest, off, last => pass2 h nA nC nG idx rest (off + 1) last
  | Tok.startHeader d :: rest, off, last =>
    match d with
    | Except.error e =>
      ([], some (GoErr.wrap (WrapMsg.decodeHeader (off + 1)) (GoErr.str e)))
    | Except.ok h0 =>
      let hdr := { h0 with
        numberOfArticles := nA
        numberOfCatalogGroups := nC
        numberOfClassificationGroups := nG
        numberOfArticleToCatalogGroupMaps := idx.length }
      if h.hasHeader then
        match h.headerRet hdr with
        | some GoErr.eof => (Event.header hdr :: completionEvents h, none)
        | _ => consEv (Event.header hdr) (pass2 h nA nC nG idx rest (off + 1) last)
      else pass2 h nA nC nG idx rest (off + 1) last
  | Tok.startCatalogStructure d :: rest, off, last =>
    match d with
    | Except.error e =>
      ([], some (GoErr.wrap (WrapMsg.decodeCatalogGroup (off + 1)) (GoErr.str e)))
    | Except.ok cg =>
      if h.hasCatalogGroup then
        match h.catalogGroupRet cg with
        | some e =>
          ([Event.catalogGroup cg], some (GoErr.wrap (WrapMsg.handlerCatalogGroup cg.id (off + 1)) e))
        | none => consEv (Event.catalogGroup cg) (pass2 h nA nC nG idx rest (off + 1) last)
      else pass2 h nA nC nG idx rest (off + 1) last
  | Tok.startClassificationGroup d :: rest, off, last =>
    match d with
    | Except.error e =>
      ([], some (GoErr.wrap (WrapMsg.decodeClassificationGroup (off + 1)) (GoErr.str e)))
    | Except.ok cg =>
      if h.hasClassificationGroup then
        match h.classificationGroupRet cg with
        | some e =>
          ([Event.classificationGroup cg],
           some (GoErr.wrap (WrapMsg.handlerClassificationGroup cg.id (off + 1)) e))
        | none =>
          consEv (Event.classificationGroup cg) (pass2 h nA nC nG idx rest (off + 1) last)
      else pass2 h nA nC nG idx rest (off + 1) last
  | Tok.startArticle d :: rest, off, last =>
    match d with
    | Except.error e =>
      ([], some (GoErr.wrap (WrapMsg.decodeArticle last (off + 1)) (GoErr.str e)))
    | Except.ok a =>
      if h.hasArticle then
        let a2 := match indexLookup idx a.supplierAID with
          | some ids => { a with catalogGroupIDs := ids }
          | none => a
        match h.articleRet a2 with
        | some e =>
          ([Event.article a2], some (GoErr.wrap (WrapMsg.handlerArticle a2.supplierAID (off + 1)) e))
        | none => consEv (Event.article a2) (pass2 h nA nC nG idx rest (off + 1) a.supplierAID)
      else pass2 h nA nC nG idx rest (off + 1) a.supplierAID

/-- Reader.Do (reader.go): run pass 1 from the start of the document,
seek back, run pass 2 dispatching to the handler. Returns the ordered
handler invocations together with the error result of Do (none is a
nil return). Seeking is modelled as always succeeding and the context
as never cancelled. -/
def Reader.Do (h : Handler) (doc : List Tok) : List Event × Option GoErr :=
  match pass1 {} 0 doc with
  | Except.error e => ([], some e)
  | Except.ok st =>
    pass2 h st.numArticles st.numCatalogGroups st.numClassifGroups st.artToCatalogGroup doc 0 ""

/-- The group IDs of all successfully decoded mapping records naming a
given article ID, in document order: the list the spec says an article
handed to the article handler must carry. -/
def groupsFor (doc : List Tok) (aid : String) : List String :=
  doc.filterMap fun t =>
    match t with
    | Tok.startMap (Except.ok m) =>
      if m.articleID = aid then some m.catalogGroupID else none
    | _ => none

/-- The article IDs of all successfully decoded mapping records, in
document order. -/
def mapAids (doc : List Tok) : List String :=
  doc.filterMap fun t =>
    match t with
    | Tok.startMap (Except.ok m) => some m.articleID
    | _ => none

/-- Number of ARTICLE start elements of the document. -/
def countArticles (doc : List Tok) : Nat :=
  doc.countP fun t => match t with | Tok.startArticle _ => true | _ => false

/-- Number of CATALOG_STRUCTURE start elements of the document. -/
def countCatalogStructures (doc : List Tok) : Nat :=
  doc.countP fun t => match t with | Tok.startCatalogStructure _ => true | _ => false

/-- Number of CLASSIFICATION_GROUP start elements of the document. -/
def countClassificationGroups (doc : List Tok) : Nat :=
  doc.countP fun t => match t with | Tok.startClassificationGroup _ => true | _ => false

/-- Number of HandleComplete invocations in a trace. -/
def countComplete : List Event → Nat
  | [] => 0
  | Event.complete :: rest => countComplete rest + 1
  | _ :: rest => countComplete rest

/-- Transaction mode of a catalog (writer.go). -/
inductive Transaction where
  | NewCatalog
  | UpdateProducts
  | UpdatePrices
deriving DecidableEq, Repr

/-- Transaction.String (writer.go): the canonical token of the
transaction wrapper element; the default case is T_NEW_CATALOG. -/
def Transaction.string : Transaction → String
  | Transaction.UpdateProducts => "T_UPDATE_PRODUCTS"
  | Transaction.UpdatePrices => "T_UPDATE_PRICES"
  | _ => "T_NEW_CATALOG"

/-- ClassificationSystem record (classification_system.go); only the
fields the writer inspects are carried. -/
structure ClassificationSystem where
  name : String := ""
  version : String := ""
  groups : List ClassificationGroup := []
deriving DecidableEq, Repr

/-- ClassificationSystem.IsBlank: true when the receiver pointer is nil
or its group list is empty. The Option models the Go pointer. -/
def ClassificationSystem.IsBlank : Option ClassificationSystem → Bool
  | none => true
  | some cs => cs.groups.isEmpty

/-- GroupStructure record (group_system.go, element CATALOG_STRUCTURE
inside CATALOG_GROUP_SYSTEM). -/
structure GroupStructure where
  typ : String := ""
  id : String := ""
  name : String := ""
  parentID : String := ""
  order : Int := 0
deriving DecidableEq, Repr

/-- GroupSystem record (group_system.go, element CATALOG_GROUP_SYSTEM). -/
structure GroupSystem where
  id : String := ""
  name : String := ""
  structures : List GroupStructure := []
deriving DecidableEq, Repr

/-- GroupSystem.IsBlank: true when the receiver pointer is nil or the
structure list is empty. -/
def GroupSystem.IsBlank : Option GroupSystem → Bool
  | none => true
  | some gs => gs.structures.isEmpty

/-- The CatalogWriter contract of Writer.Do, as data: the transaction
kind, the accessor results, the drained article channel (none models a
nil channel), and the optional CatalogGroupSystemWriter capability
(outer none: the interface is not implemented; inner Option: the
returned pointer). -/
structure CatalogDesc where
  transaction : Transaction := Transaction.NewCatalog
  language : String := ""
  previousVersion : Int := 0
  header : Option Header := none
  classificationSystem : Option ClassificationSystem := none
  articles : Option (List Article) := none
  groupSystemCap : Option (Option GroupSystem) := none

/-- Writer.xmlNamespace (writer.go): the namespace attribute for the
root element, by transaction kind (default: new catalog). -/
def xmlNamespace : Transaction → String
  | Transaction.UpdateProducts => "http://www.bmecat.org/bmecat/1.2/bmecat_update_products"
  | Transaction.UpdatePrices => "http://www.bmecat.org/bmecat/1.2/bmecat_update_prices"
  | _ => "http://www.bmecat.org/bmecat/1.2/bmecat_new_catalog"

/-- The prev_version attribute of the transaction wrapper: present only
for the two update transaction kinds (writer.go, txStartElement). -/
def prevVersionAttr (d : CatalogDesc) : Option Int :=
  match d.transaction with
  | Transaction.UpdateProducts => some d.previousVersion
  | Transaction.UpdatePrices => some d.previousVersion
  | Transaction.NewCatalog => none

/-- One structural part emitted by Writer.Do, in output order. -/
inductive WItem where
  | leadIn (ns : String)
  | headerItem (h : Header)
  | txOpen (name : String) (prevVersion : Option Int)
  | classificationSystemItem (cs : ClassificationSystem)
  | groupSystemItem (gs : GroupSystem)
  | articleItem (a : Article)
  | txClose (name : String)
  | leadOut
deriving DecidableEq, Repr

/-- Writer.writeArticles (writer.go): drain the article channel; a nil
channel writes nothing. The error channel and cancellation are not
exercised by any claim and are modelled as silent. -/
def writeArticles (d : CatalogDesc) : List WItem :=
  match d.articles with
  | none => []
  | some l => l.map WItem.articleItem

/-- The optional header block of Writer.Do. -/
def headerChunk : Option Header → List WItem
  | some h => [WItem.headerItem h]
  | none => []

/-- The classification-system block of Writer.Do: emitted only when the
supplied pointer is non-nil and the system is not blank. -/
def classificationChunk : Option ClassificationSystem → List WItem
  | some cs =>
    if ClassificationSystem.IsBlank (some cs) then [] else [WItem.classificationSystemItem cs]
  | none => []

/-- The catalog-group-system block of Writer.Do: emitted only when the
CatalogGroupSystemWriter capability is implemented, its pointer is
non-nil and the system is not blank. -/
def groupSystemChunk : Option (Option GroupSystem) → List WItem
  | some (some gs) => if GroupSystem.IsBlank (some gs) then [] else [WItem.groupSystemItem gs]
  | some none => []
  | none => []

/-- The transaction-specific lead of Writer.Do: both system blocks are
considered only for the new-catalog transaction. -/
def newCatalogChunk (d : CatalogDesc) : List WItem :=
  if d.transaction = Transaction.NewCatalog then
    classificationChunk d.classificationSystem ++ groupSystemChunk d.groupSystemCap
  else []

/-- Writer.Do (writer.go), successful path: lead-in, optional header,
transaction wrapper, and, only for the new-catalog transaction, the
classification system when supplied non-nil and not blank, then the
group system when the CatalogGroupSystemWriter capability is present,
its pointer non-nil and the system not blank; then the articles and the
closing elements. -/
def Writer.Do (d : CatalogDesc) : List WItem :=
  WItem.leadIn (xmlNamespace d.transaction) ::
  (headerChunk d.header ++
   (WItem.txOpen d.transaction.string (prevVersionAttr d) ::
    (newCatalogChunk d ++
     (writeArticles d ++
      [WItem.txClose d.transaction.string, WItem.leadOut]))))

/-- A user-defined-extension field (user_defined_extensions.go). Go
strings are modelled as character lists here because the codec embeds
the field name into the element name by concatenation and slicing. -/
structure UserDefinedExtensionField where
  name : List Char := []
  value : List Char := []
  innerXML : List Char := []
  raw : Bool := false
deriving DecidableEq, Repr

/-- One XML token at the level the extension codec works: start
element, character data, raw inner XML, end element. -/
inductive XTok where
  | startEl (name : List Char)
  | charData (s : List Char)
  | rawXML (s : List Char)
  | endEl (name : List Char)
deriving DecidableEq, Repr

/-- The token sequence MarshalXML emits for one field: the element name
is UDX. followed by the field name; a raw field injects its value as
inner XML, otherwise the value is character data. -/
def marshalUDXField (f : UserDefinedExtensionField) : List XTok :=
  if f.raw then
    [XTok.startEl ("UDX.".data ++ f.name), XTok.rawXML f.value, XTok.endEl ("UDX.".data ++ f.name)]
  else
    [XTok.startEl ("UDX.".data ++ f.name), XTok.charData f.value, XTok.endEl ("UDX.".data ++ f.name)]

/-- UserDefinedExtensions.MarshalXML: the USER_DEFINED_EXTENSIONS
wrapper around the encoded fields. -/
def marshalUDX (fields : List UserDefinedExtensionField) : List XTok :=
  XTok.startEl "USER_DEFINED_EXTENSIONS".data ::
    ((fields.map marshalUDXField).flatten ++ [XTok.endEl "USER_DEFINED_EXTENSIONS".data])

/-- Rendering of one token into inner-XML text, used to model the
innerxml attribute DecodeElement fills. -/
def renderXTok : XTok → List Char
  | XTok.startEl n => '<' :: (n ++ ['>'])
  | XTok.charData s => s
  | XTok.rawXML s => s
  | XTok.endEl n => '<' :: ('/' :: (n ++ ['>']))

/-- UserDefinedExtensions.UnmarshalXML, written as a token-level state
machine: with no field in progress, a start element whose local name
begins with UDX. opens a field named by the rest of the element name
(DecodeElement inlined: depth-0 character data accumulates into the
value, everything accumulates into the inner XML, the matching end
element closes the field); any other token is skipped. -/
def unmarshalUDXAux : Option (UserDefinedExtensionField × Nat) → List XTok →
    List UserDefinedExtensionField
  | _, [] => []
  | none, XTok.startEl n :: rest =>
    if ("UDX.".data).isPrefixOf n then
      unmarshalUDXAux (some ({ name := n.drop 4 }, 0)) rest
    else unmarshalUDXAux none rest
  | none, _ :: rest => unmarshalUDXAux none rest
  | some (f, 0), XTok.endEl _ :: rest => f :: unmarshalUDXAux none rest
  | some (f, d + 1), XTok.endEl n :: rest =>
    unmarshalUDXAux (some ({ f with innerXML := f.innerXML ++ renderXTok (XTok.endEl n) }, d)) rest
  | some (f, d), XTok.startEl n :: rest =>
    unmarshalUDXAux (some ({ f with innerXML := f.innerXML ++ renderXTok (XTok.startEl n) }, d + 1)) rest
  | some (f, d), XTok.charData s :: rest =>
    let f2 := { f with innerXML := f.innerXML ++ s }
    unmarshalUDXAux (some ((if d = 0 then { f2 with value := f2.value ++ s } else f2), d)) rest
  | some (f, d), XTok.rawXML s :: rest =>
    unmarshalUDXAux (some ({ f with innerXML := f.innerXML ++ s }, d)) rest

/-- UserDefinedExtensions.UnmarshalXML over a token stream. -/
def unmarshalUDX (toks : List XTok) : List UserDefinedExtensionField :=
  unmarshalUDXAux none toks

/-- A Go time.Location: a zone name and its offset east of UTC in
seconds. -/
structure Location where
  name : String
  offsetSeconds : Int
deriving DecidableEq, Repr

/-- time.UTC. -/
def utc : Location := { name := "UTC", offsetSeconds := 0 }

/-- A Go time.Time instant, to calendar-second precision, together with
its location. -/
structure GoTime where
  year : Nat
  month : Nat
  day : Nat
  hour : Nat
  minute : Nat
  second : Nat
  loc : Location
deriving DecidableEq, Repr

/-- The zero value of time.Time: January 1, year 1, 00:00:00 UTC. -/
def zeroTime : GoTime := { year := 1, month := 1, day := 1, hour := 0, minute := 0, second := 0, loc := utc }

/-- time.Time.IsZero. -/
def GoTime.isZero (t : GoTime) : Bool := t = zeroTime

/-- A natural number rendered with at least two digits (Go zero pads
fixed-width layout fields). -/
def pad2 (n : Nat) : String := if n < 10 then "0" ++ toString n else toString n

/-- A year rendered with four digits. -/
def pad4 (n : Nat) : String :=
  if n < 10 then "000" ++ toString n
  else if n < 100 then "00" ++ toString n
  else if n < 1000 then "0" ++ toString n
  else toString n

/-- time.Time.Format with layout 2006-01-02. -/
def GoTime.formatDate (t : GoTime) : String :=
  pad4 t.year ++ "-" ++ pad2 t.month ++ "-" ++ pad2 t.day

/-- time.Time.Format with layout 15:04:05. -/
def GoTime.formatClock (t : GoTime) : String :=
  pad2 t.hour ++ ":" ++ pad2 t.minute ++ ":" ++ pad2 t.second

/-- time.Time.Format with layout -07:00: the signed HH:MM rendering of
a zone offset given in seconds. -/
def formatZoneOffset (off : Int) : String :=
  (if off < 0 then "-" else "+") ++ pad2 (off.natAbs / 3600) ++ ":" ++ pad2 (off.natAbs % 3600 / 60)

/-- NewDateTime (date_time.go): nil for the zero instant; otherwise a
record with the formatted date and clock, and the timezone string Z
when the location is UTC, else the signed HH:MM offset. -/
def NewDateTime (typ : String) (dt : GoTime) : Option DateTime :=
  if dt.isZero then none
  else some
    { typ := typ
      dateString := dt.formatDate
      timeString := dt.formatClock
      timeZoneString := if dt.loc = utc then "Z" else formatZoneOffset dt.loc.offsetSeconds }

/-- Number of days of a month, with Go leap year rules. -/
def daysIn (year month : Nat) : Nat :=
  if month = 2 then
    if year % 4 = 0 && (year % 100 != 0 || year % 400 = 0) then 29 else 28
  else if month = 4 || month = 6 || month = 9 || month = 11 then 30
  else 31

/-- Numeric value of a decimal digit character. -/
def digitVal (c : Char) : Nat := c.toNat - 48

/-- time.Parse with the fixed layout 2006-01-02 15:04:05: the input
must be exactly nineteen characters with digits and separators in
place, and the field values must be in range; the parsed instant is in
UTC. -/
def parseFixedDateTime (s : String) : Except String GoTime :=
  match s.data with
  | [y1, y2, y3, y4, c1, m1, m2, c2, d1, d2, c3, h1, h2, c4, n1, n2, c5, s1, s2] =>
    if (c1 = '-' && c2 = '-' && c3 = ' ' && c4 = ':' && c5 = ':' &&
        y1.isDigit && y2.isDigit && y3.isDigit && y4.isDigit &&
        m1.isDigit && m2.isDigit && d1.isDigit && d2.isDigit &&
        h1.isDigit && h2.isDigit && n1.isDigit && n2.isDigit &&
        s1.isDigit && s2.isDigit) then
      let year := digitVal y1 * 1000 + digitVal y2 * 100 + digitVal y3 * 10 + digitVal y4
      let month := digitVal m1 * 10 + digitVal m2
      let day := digitVal d1 * 10 + digitVal d2
      let hour := digitVal h1 * 10 + digitVal h2
      let minute := digitVal n1 * 10 + digitVal n2
      let second := digitVal s1 * 10 + digitVal s2
      if (1 ≤ month && month ≤ 12 && 1 ≤ day && day ≤ daysIn year month &&
          hour ≤ 23 && minute ≤ 59 && second ≤ 59) then
        Except.ok { year := year, month := month, day := day,
                    hour := hour, minute := minute, second := second, loc := utc }
      else Except.error "parsing time: value out of range"
    else Except.error "parsing time: cannot parse value"
  | _ => Except.error "parsing time: cannot parse value"

/-- DefaultStartDate (date_time.go init): 1970-01-01. -/
def DefaultStartDate : GoTime :=
  { year := 1970, month := 1, day := 1, hour := 0, minute := 0, second := 0, loc := utc }

/-- DefaultEndDate (date_time.go init): 2038-01-19. -/
def DefaultEndDate : GoTime :=
  { year := 2038, month := 1, day := 19, hour := 0, minute := 0, second := 0, loc := utc }

/-- DateTime.Time (date_time.go): an empty time string defaults to
midnight, then the date and time substrings are joined and parsed with
the fixed layout. The timezone string is parsed nowhere. -/
def DateTime.Time (dt : DateTime) : Except String GoTime :=
  parseFixedDateTime (dt.dateString ++ " " ++ (if dt.timeString = "" then "00:00:00" else dt.timeString))

/-- The agreement date type tag fort the start date (header.go). -/
def DateTimeAgreementStartDate : String := "agreement_start_date"

/-- The agreement date type tag for the end date (header.go). -/
def DateTimeAgreementEndDate : String := "agreement_end_date"

/-- The price validity type tag for the start date (article.go). -/
def DateTimeValidStartDate : String := "valid_start_date"

/-- The price validity type tag for the end date (article.go). -/
def DateTimeValidEndDate : String := "valid_end_date"

/-- Agreement record (header.go). -/
structure Agreement where
  typ : String := ""
  id : String := ""
  dates : List DateTime := []
deriving DecidableEq, Repr

/-- Agreement.StartDate (header.go): the first date record tagged as
agreement start date, parsed; absence or a parse failure yields the
process-wide start sentinel. -/
def Agreement.StartDate (a : Agreement) : GoTime :=
  match a.dates.find? (fun d => d.typ == DateTimeAgreementStartDate) with
  | none => DefaultStartDate
  | some d =>
    match d.Time with
    | Except.ok t => t
    | Except.error _ => DefaultStartDate

/-- Agreement.EndDate (header.go): the first date record tagged as
agreement end date, parsed; absence or a parse failure yields the
process-wide end sentinel. -/
def Agreement.EndDate (a : Agreement) : GoTime :=
  match a.dates.find? (fun d => d.typ == DateTimeAgreementEndDate) with
  | none => DefaultEndDate
  | some d =>
    match d.Time with
    | Except.ok t => t
    | Except.error _ => DefaultEndDate

/-- ArticlePriceDetails.ValidStartDate (article.go): analogous to the
agreement start date, with the valid_start_date tag. -/
def ArticlePriceDetails.ValidStartDate (apd : ArticlePriceDetails) : GoTime :=
  match apd.dates.find? (fun d => d.typ == DateTimeValidStartDate) with
  | none => DefaultStartDate
  | some d =>
    match d.Time with
    | Except.ok t => t
    | Except.error _ => DefaultStartDate

/-- ArticlePriceDetails.ValidEndDate (article.go): analogous to the
agreement end date, with the valid_end_date tag. -/
def ArticlePriceDetails.ValidEndDate (apd : ArticlePriceDetails) : GoTime :=
  match apd.dates.find? (fun d => d.typ == DateTimeValidEndDate) with
  | none => DefaultEndDate
  | some d =>
    match d.Time with
    | Except.ok t => t
    | Except.error _ => DefaultEndDate

/-- A sample decoded header with all fields at their zero values. -/
def hdr0 : Header := {}

/-- A sample decoded article with supplier ID A1. -/
def art0 : Article := { supplierAID := "A1" }

/-- A handler whose header callback reports a non-EOF error and that
also wants articles and the completion notice. -/
def errHeaderHandler : Handler :=
  { hasHeader := true
    headerRet := fun _ => some (GoErr.str "header handler failed")
    hasArticle := true
    hasComplete := true }

/-- A two-element document: a header followed by one article. -/
def docHeaderArticle : List Tok :=
  [Tok.startHeader (Except.ok hdr0), Tok.startArticle (Except.ok art0)]

/-- A handler implementing every capability, each callback returning
nil. -/
def allCapHandler : Handler :=
  { hasHeader := true
    hasCatalogGroup := true
    hasClassificationGroup := true
    hasArticle := true
    hasComplete := true }

/-- A handler whose header callback returns io.EOF and that also wants
articles, groups and the completion notice. -/
def eofHeaderHandler : Handler :=
  { hasHeader := true
    headerRet := fun _ => some GoErr.eof
    hasCatalogGroup := true
    hasClassificationGroup := true
    hasArticle := true
    hasComplete := true }

/-- A document with one mapping before the article, one after, a header
and one catalog structure, exercising the cross-reference index. -/
def docMapped : List Tok :=
  [Tok.startMap (Except.ok { articleID := "A1", catalogGroupID := "G1" }),
   Tok.startHeader (Except.ok hdr0),
   Tok.startCatalogStructure (Except.ok { id := "CS1" }),
   Tok.startArticle (Except.ok art0),
   Tok.startMap (Except.ok { articleID := "A1", catalogGroupID := "G2" })]

/-- The non-raw extension field of the specification example. -/
def sampleField : UserDefinedExtensionField :=
  { name := "SYSTEM.CUSTOM_FIELD1".data, value := "A".data }

/-- The instant 2000-10-24 20:38:00 UTC of the NewDateTime test. -/
def tUTCSample : GoTime :=
  { year := 2000, month := 10, day := 24, hour := 20, minute := 38, second := 0, loc := utc }

/-- The instant 2017-08-01 09:12:59 in a zone four hours west of UTC. -/
def tNonUTCSample : GoTime :=
  { year := 2017, month := 8, day := 1, hour := 9, minute := 12, second := 59,
    loc := { name := "America/New_York", offsetSeconds := -14400 } }

/-- A writer description supplying a non-nil classification system with
an empty group list for a new catalog. -/
def descBlankCS : CatalogDesc :=
  { transaction := Transaction.NewCatalog
    classificationSystem := some { name := "ECLASS", groups := [] }
    articles := some [art0] }

/-- An agreement with one start date record lacking a time of day. -/
def agSample : Agreement :=
  { id := "AG1", dates := [{ typ := "agreement_start_date", dateString := "2017-08-01" }] }

/-- The header the reader delivers for docMapped: one article, one
catalog structure, one distinct mapped article. -/
def hdrMapped : Header :=
  { numberOfArticles := 1, numberOfCatalogGroups := 1, numberOfArticleToCatalogGroupMaps := 1 }

end Bmecat

namespace Bmecat

theorem indexLookup_indexInsert (idx : List (String × List String)) (a g b : String) :
    indexLookup (indexInsert idx a g) b =
      if b = a then some ((indexLookup idx a).getD [] ++ [g]) else indexLookup idx b := by
  induction idx with
  | nil =>
    by_cases hba : b = a
    · subst hba; simp [indexInsert, indexLookup]
    · have hab : ¬a = b := fun h => hba h.symm
      simp [indexInsert, indexLookup, hba, hab]
  | cons kv rest ih =>
    obtain ⟨k, v⟩ := kv
    by_cases hka : k = a
    · subst hka
      by_cases hbk : b = k
      · subst hbk; simp [indexInsert, indexLookup]
      · have hkb : ¬k = b := fun h => hbk h.symm
        simp [indexInsert, indexLookup, hbk, hkb]
    · by_cases hbk : b = k
      · subst hbk
        have hba : ¬b = a := fun h => hka (h ▸ rfl)
        simp [indexInsert, indexLookup, hka, hba]
      · have hkb : ¬k = b := fun h => hbk h.symm
        simp [indexInsert, indexLookup, hka, hkb, ih]

theorem mem_keys_indexInsert (idx : List (String × List String)) (a g b : String) :
    b ∈ (indexInsert idx a g).map Prod.fst ↔ b ∈ idx.map Prod.fst ∨ b = a := by
  induction idx with
  | nil => simp [indexInsert]
  | cons kv rest ih =>
    obtain ⟨k, v⟩ := kv
    by_cases hka : k = a
    · subst hka; simp [indexInsert]; tauto
    · simp [indexInsert, hka, ih]; tauto

theorem keys_toFinset_indexInsert (idx : List (String × List String)) (a g : String) :
    ((indexInsert idx a g).map Prod.fst).toFinset = insert a (idx.map Prod.fst).toFinset := by
  induction idx with
  | nil => simp [indexInsert]
  | cons kv rest ih =>
    obtain ⟨k, v⟩ := kv
    by_cases hka : k = a
    · subst hka; simp [indexInsert]
    · simp [indexInsert, hka, ih, Finset.Insert.comm]

theorem nodup_keys_indexInsert (idx : List (String × List String)) (a g : String)
    (h : (idx.map Prod.fst).Nodup) : ((indexInsert idx a g).map Prod.fst).Nodup := by
  induction idx with
  | nil => simp [indexInsert]
  | cons kv rest ih =>
    obtain ⟨k, v⟩ := kv
    simp only [List.map_cons, List.nodup_cons] at h
    by_cases hka : k = a
    · subst hka
      simp [indexInsert, List.nodup_cons, h.1, h.2]
    · simp only [indexInsert, hka, if_false, List.map_cons, List.nodup_cons]
      refine ⟨?_, ih h.2⟩
      rw [mem_keys_indexInsert]
      rintro (hk | hk)
      · exact h.1 hk
      · exact hka hk

theorem pass1_counts :
    ∀ (toks : List Tok) (st : Pass1State) (off : Nat) (st' : Pass1State),
    pass1 st off toks = Except.ok st' →
    st'.numArticles = st.numArticles + countArticles toks ∧
    st'.numCatalogGroups = st.numCatalogGroups + countCatalogStructures toks ∧
    st'.numClassifGroups = st.numClassifGroups + countClassificationGroups toks := by
  intro toks
  induction toks with
  | nil =>
    intro st off st' hok
    simp only [pass1] at hok
    cases hok
    simp [countArticles, countCatalogStructures, countClassificationGroups]
  | cons t rest ih =>
    intro st off st' hok
    cases t with
    | startHeader d =>
      have := ih _ _ _ hok
      simpa [countArticles, countCatalogStructures, countClassificationGroups,
        List.countP_cons] using this
    | startCatalogStructure d =>
      have := ih _ _ _ hok
      simp [countArticles, countCatalogStructures, countClassificationGroups,
        List.countP_cons] at this ⊢
      all_goals omega
    | startClassificationGroup d =>
      have := ih _ _ _ hok
      simp [countArticles, countCatalogStructures, countClassificationGroups,
        List.countP_cons] at this ⊢
      all_goals omega
    | startArticle d =>
      have := ih _ _ _ hok
      simp [countArticles, countCatalogStructures, countClassificationGroups,
        List.countP_cons] at this ⊢
      all_goals omega
    | startMap d =>
      cases d with
      | error e => simp [pass1] at hok
      | ok m =>
        have := ih _ _ _ hok
        simpa [countArticles, countCatalogStructures, countClassificationGroups,
          List.countP_cons] using this
    | other =>
      have := ih _ _ _ hok
      simpa [countArticles, countCatalogStructures, countClassificationGroups,
        List.countP_cons] using this
    | tokErr m => simp [pass1] at hok

theorem pass1_lookup :
    ∀ (toks : List Tok) (st : Pass1State) (off : Nat) (st' : Pass1State),
    pass1 st off toks = Except.ok st' → ∀ aid : String,
    ((indexLookup st'.artToCatalogGroup aid).getD [] =
      (indexLookup st.artToCatalogGroup aid).getD [] ++ groupsFor toks aid) ∧
    (indexLookup st'.artToCatalogGroup aid = none ↔
      (indexLookup st.artToCatalogGroup aid = none ∧ groupsFor toks aid = [])) := by
  intro toks
  induction toks with
  | nil =>
    intro st off st' hok aid
    simp only [pass1] at hok
    cases hok
    simp [groupsFor]
  | cons t rest ih =>
    intro st off st' hok aid
    cases t with
    | startHeader d => simpa [groupsFor, List.filterMap_cons] using ih _ _ _ hok aid
    | startCatalogStructure d => simpa [groupsFor, List.filterMap_cons] using ih _ _ _ hok aid
    | startClassificationGroup d => simpa [groupsFor, List.filterMap_cons] using ih _ _ _ hok aid
    | startArticle d => simpa [groupsFor, List.filterMap_cons] using ih _ _ _ hok aid
    | other => simpa [groupsFor, List.filterMap_cons] using ih _ _ _ hok aid
    | tokErr m => simp [pass1] at hok
    | startMap d =>
      cases d with
      | error e => simp [pass1] at hok
      | ok m =>
        have hrest := ih _ _ _ hok aid
        simp only [pass1] at hrest
        by_cases haid : m.articleID = aid
        · subst haid
          rw [indexLookup_indexInsert] at hrest
          simp only [if_pos rfl] at hrest
          constructor
          · rw [hrest.1]
            simp [groupsFor, List.filterMap_cons]
          · rw [hrest.2]
            simp [groupsFor, List.filterMap_cons]
        · rw [indexLookup_indexInsert] at hrest
          have : ¬aid = m.articleID := fun h => haid h.symm
          simp only [if_neg this] at hrest
          constructor
          · rw [hrest.1]
            simp [groupsFor, List.filterMap_cons, haid]
          · rw [hrest.2]
            simp [groupsFor, List.filterMap_cons, haid]

theorem pass1_keys :
    ∀ (toks : List Tok) (st : Pass1State) (off : Nat) (st' : Pass1State),
    pass1 st off toks = Except.ok st' →
    ((st'.artToCatalogGroup.map Prod.fst).toFinset =
      (st.artToCatalogGroup.map Prod.fst).toFinset ∪ (mapAids toks).toFinset) ∧
    ((st.artToCatalogGroup.map Prod.fst).Nodup → (st'.artToCatalogGroup.map Prod.fst).Nodup) := by
  intro toks
  induction toks with
  | nil =>
    intro st off st' hok
    simp only [pass1] at hok
    cases hok
    simp [mapAids]
  | cons t rest ih =>
    intro st off st' hok
    cases t with
    | startHeader d => simpa [mapAids, List.filterMap_cons] using ih _ _ _ hok
    | startCatalogStructure d => simpa [mapAids, List.filterMap_cons] using ih _ _ _ hok
    | startClassificationGroup d => simpa [mapAids, List.filterMap_cons] using ih _ _ _ hok
    | startArticle d => simpa [mapAids, List.filterMap_cons] using ih _ _ _ hok
    | other => simpa [mapAids, List.filterMap_cons] using ih _ _ _ hok
    | tokErr m => simp [pass1] at hok
    | startMap d =>
      cases d with
      | error e => simp [pass1] at hok
      | ok m =>
        have hrest := ih _ _ _ hok
        simp only [pass1] at hrest
        constructor
        · rw [hrest.1, keys_toFinset_indexInsert]
          simp only [mapAids, List.filterMap_cons]
          rw [List.toFinset_cons]
          rw [Finset.insert_union, Finset.union_comm, Finset.union_insert, Finset.union_comm]
        · intro hnd
          exact hrest.2 (nodup_keys_indexInsert _ _ _ hnd)

theorem pass1_index_length (doc : List Tok) (st' : Pass1State)
    (hok : pass1 {} 0 doc = Except.ok st') :
    st'.artToCatalogGroup.length = (mapAids doc).toFinset.card := by
  have hkeys := pass1_keys doc {} 0 st' hok
  have hnd : (st'.artToCatalogGroup.map Prod.fst).Nodup := by
    apply hkeys.2
    simp
  have hfin : (st'.artToCatalogGroup.map Prod.fst).toFinset = (mapAids doc).toFinset := by
    rw [hkeys.1]
    simp
  calc st'.artToCatalogGroup.length
      = (st'.artToCatalogGroup.map Prod.fst).length := by simp
    _ = (st'.artToCatalogGroup.map Prod.fst).toFinset.card :=
        (List.toFinset_card_of_nodup hnd).symm
    _ = (mapAids doc).toFinset.card := by rw [hfin]

theorem mem_completionEvents (h : Handler) (e : Event) (he : e ∈ completionEvents h) :
    e = Event.complete := by
  by_cases hc : h.hasComplete <;> simp [completionEvents, hc] at he
  exact he

theorem pass2_article_groups (h : Handler) (nA nC nG : Nat)
    (idx : List (String × List String)) :
    ∀ (toks : List Tok) (off : Nat) (last : String),
    (∀ d : Article, Tok.startArticle (Except.ok d) ∈ toks → d.catalogGroupIDs = []) →
    ∀ a : Article, Event.article a ∈ (pass2 h nA nC nG idx toks off last).1 →
    a.catalogGroupIDs = (indexLookup idx a.supplierAID).getD [] := by
  intro toks
  induction toks with
  | nil =>
    intro off last hwf a ha
    simp only [pass2] at ha
    exact absurd (mem_completionEvents h _ ha) (by simp)
  | cons t rest ih =>
    intro off last hwf a ha
    have hwfr : ∀ d : Article, Tok.startArticle (Except.ok d) ∈ rest → d.catalogGroupIDs = [] :=
      fun d hd => hwf d (List.mem_cons_of_mem _ hd)
    cases t with
    | tokErr m => simp [pass2] at ha
    | other => exact ih (off + 1) last hwfr a (by simpa [pass2] using ha)
    | startMap d => exact ih (off + 1) last hwfr a (by simpa [pass2] using ha)
    | startHeader d =>
      cases d with
      | error e => simp [pass2] at ha
      | ok h0 =>
        simp only [pass2] at ha
        split at ha
        · split at ha
          · simp only [List.mem_cons] at ha
            rcases ha with ha | ha
            · cases ha
            · exact absurd (mem_completionEvents h _ ha) (by simp)
          · simp only [consEv, List.mem_cons] at ha
            rcases ha with ha | ha
            · cases ha
            · exact ih (off + 1) last hwfr a ha
        · exact ih (off + 1) last hwfr a ha
    | startCatalogStructure d =>
      cases d with
      | error e => simp [pass2] at ha
      | ok cg =>
        simp only [pass2] at ha
        split at ha
        · split at ha
          · simp only [List.mem_cons, List.not_mem_nil, or_false] at ha
            cases ha
          · simp only [consEv, List.mem_cons] at ha
            rcases ha with ha | ha
            · cases ha
            · exact ih (off + 1) last hwfr a ha
        · exact ih (off + 1) last hwfr a ha
    | startClassificationGroup d =>
      cases d with
      | error e => simp [pass2] at ha
      | ok cg =>
        simp only [pass2] at ha
        split at ha
        · split at ha
          · simp only [List.mem_cons, List.not_mem_nil, or_false] at ha
            cases ha
          · simp only [consEv, List.mem_cons] at ha
            rcases ha with ha | ha
            · cases ha
            · exact ih (off + 1) last hwfr a ha
        · exact ih (off + 1) last hwfr a ha
    | startArticle d =>
      cases d with
      | error e => simp [pass2] at ha
      | ok a0 =>
        have ha0 : a0.catalogGroupIDs = [] := hwf a0 (List.mem_cons_self _ _)
        rcases hl : indexLookup idx a0.supplierAID with _ | ids
        · simp only [pass2, hl] at ha
          split at ha
          · split at ha
            · simp only [List.mem_cons, List.not_mem_nil, or_false] at ha
              cases ha
              simp [hl, ha0]
            · simp only [consEv, List.mem_cons] at ha
              rcases ha with ha | ha
              · cases ha
                simp [hl, ha0]
              · exact ih (off + 1) a0.supplierAID hwfr a ha
          · exact ih (off + 1) a0.supplierAID hwfr a ha
        · simp only [pass2, hl] at ha
          split at ha
          · split at ha
            · simp only [List.mem_cons, List.not_mem_nil, or_false] at ha
              cases ha
              simp [hl]
            · simp only [consEv, List.mem_cons] at ha
              rcases ha with ha | ha
              · cases ha
                simp [hl]
              · exact ih (off + 1) a0.supplierAID hwfr a ha
          · exact ih (off + 1) a0.supplierAID hwfr a ha

theorem pass2_header_counters (h : Handler) (nA nC nG : Nat)
    (idx : List (String × List String)) :
    ∀ (toks : List Tok) (off : Nat) (last : String) (hdr : Header),
    Event.header hdr ∈ (pass2 h nA nC nG idx toks off last).1 →
    hdr.numberOfArticles = nA ∧ hdr.numberOfCatalogGroups = nC ∧
    hdr.numberOfClassificationGroups = nG ∧
    hdr.numberOfArticleToCatalogGroupMaps = idx.length := by
  intro toks
  induction toks with
  | nil =>
    intro off last hdr ha
    simp only [pass2] at ha
    exact absurd (mem_completionEvents h _ ha) (by simp)
  | cons t rest ih =>
    intro off last hdr ha
    cases t with
    | tokErr m => simp [pass2] at ha
    | other => exact ih (off + 1) last hdr (by simpa [pass2] using ha)
    | startMap d => exact ih (off + 1) last hdr (by simpa [pass2] using ha)
    | startHeader d =>
      cases d with
      | error e => simp [pass2] at ha
      | ok h0 =>
        simp only [pass2] at ha
        split at ha
        · split at ha
          · simp only [List.mem_cons] at ha
            rcases ha with ha | ha
            · cases ha; exact ⟨rfl, rfl, rfl, rfl⟩
            · exact absurd (mem_completionEvents h _ ha) (by simp)
          · simp only [consEv, List.mem_cons] at ha
            rcases ha with ha | ha
            · cases ha; exact ⟨rfl, rfl, rfl, rfl⟩
            · exact ih (off + 1) last hdr ha
        · exact ih (off + 1) last hdr ha
    | startCatalogStructure d =>
      cases d with
      | error e => simp [pass2] at ha
      | ok cg =>
        simp only [pass2] at ha
        split at ha
        · split at ha
          · simp only [List.mem_cons, List.not_mem_nil, or_false] at ha
            cases ha
          · simp only [consEv, List.mem_cons] at ha
            rcases ha with ha | ha
            · cases ha
            · exact ih (off + 1) last hdr ha
        · exact ih (off + 1) last hdr ha
    | startClassificationGroup d =>
      cases d with
      | error e => simp [pass2] at ha
      | ok cg =>
        simp only [pass2] at ha
        split at ha
        · split at ha
          · simp only [List.mem_cons, List.not_mem_nil, or_false] at ha
            cases ha
          · simp only [consEv, List.mem_cons] at ha
            rcases ha with ha | ha
            · cases ha
            · exact ih (off + 1) last hdr ha
        · exact ih (off + 1) last hdr ha
    | startArticle d =>
      cases d with
      | error e => simp [pass2] at ha
      | ok a0 =>
        simp only [pass2] at ha
        split at ha
        · split at ha
          · simp only [List.mem_cons, List.not_mem_nil, or_false] at ha
            cases ha
          · simp only [consEv, List.mem_cons] at ha
            rcases ha with ha | ha
            · cases ha
            · exact ih (off + 1) a0.supplierAID hdr ha
        · exact ih (off + 1) a0.supplierAID hdr ha

theorem pass2_eof_stops (h : Handler) (nA nC nG : Nat)
    (idx : List (String × List String))
    (hH : h.hasHeader = true) (hret : ∀ x : Header, h.headerRet x = some GoErr.eof) :
    ∀ (toks : List Tok) (off : Nat) (last : String) (hdr : Header),
    Event.header hdr ∈ (pass2 h nA nC nG idx toks off last).1 →
    (pass2 h nA nC nG idx toks off last).2 = none ∧
    ∃ p, (pass2 h nA nC nG idx toks off last).1 = p ++ Event.header hdr :: completionEvents h := by
  intro toks
  induction toks with
  | nil =>
    intro off last hdr ha
    simp only [pass2] at ha
    exact absurd (mem_completionEvents h _ ha) (by simp)
  | cons t rest ih =>
    intro off last hdr ha
    cases t with
    | tokErr m => simp [pass2] at ha
    | other =>
      simp only [pass2] at ha ⊢
      exact ih (off + 1) last hdr ha
    | startMap d =>
      simp only [pass2] at ha ⊢
      exact ih (off + 1) last hdr ha
    | startHeader d =>
      cases d with
      | error e => simp [pass2] at ha
      | ok h0 =>
        simp only [pass2, hH, if_true, hret] at ha
        simp only [List.mem_cons] at ha
        rcases ha with ha | ha
        · cases ha
          constructor
          · simp [pass2, hH, hret]
          · exact ⟨[], by simp [pass2, hH, hret]⟩
        · exact absurd (mem_completionEvents h _ ha) (by simp)
    | startCatalogStructure d =>
      cases d with
      | error e => simp [pass2] at ha
      | ok cg =>
        cases hcap : h.hasCatalogGroup with
        | false =>
          simp only [pass2, hcap] at ha ⊢
          simp only [Bool.false_eq_true, if_false] at ha ⊢
          exact ih (off + 1) last hdr ha
        | true =>
          cases hr : h.catalogGroupRet cg with
          | some e =>
            simp [pass2, hcap, hr] at ha
          | none =>
            simp only [pass2, hcap, if_true, hr, consEv, List.mem_cons] at ha
            rcases ha with ha | ha
            · cases ha
            · obtain ⟨h2, p, hp⟩ := ih (off + 1) last hdr ha
              simp only [pass2, hcap, if_true, hr, consEv]
              exact ⟨h2, Event.catalogGroup cg :: p, by simp [hp]⟩
    | startClassificationGroup d =>
      cases d with
      | error e => simp [pass2] at ha
      | ok cg =>
        cases hcap : h.hasClassificationGroup with
        | false =>
          simp only [pass2, hcap] at ha ⊢
          simp only [Bool.false_eq_true, if_false] at ha ⊢
          exact ih (off + 1) last hdr ha
        | true =>
          cases hr : h.classificationGroupRet cg with
          | some e =>
            simp [pass2, hcap, hr] at ha
          | none =>
            simp only [pass2, hcap, if_true, hr, consEv, List.mem_cons] at ha
            rcases ha with ha | ha
            · cases ha
            · obtain ⟨h2, p, hp⟩ := ih (off + 1) last hdr ha
              simp only [pass2, hcap, if_true, hr, consEv]
              exact ⟨h2, Event.classificationGroup cg :: p, by simp [hp]⟩
    | startArticle d =>
      cases d with
      | error e => simp [pass2] at ha
      | ok a0 =>
        cases hcap : h.hasArticle with
        | false =>
          simp only [pass2, hcap] at ha ⊢
          simp only [Bool.false_eq_true, if_false] at ha ⊢
          exact ih (off + 1) a0.supplierAID hdr ha
        | true =>
          rcases hl : indexLookup idx a0.supplierAID with _ | ids
          · cases hr : h.articleRet a0 with
            | some e =>
              simp [pass2, hcap, hl, hr] at ha
            | none =>
              simp only [pass2, hcap, if_true, hl, hr, consEv, List.mem_cons] at ha
              rcases ha with ha | ha
              · cases ha
              · obtain ⟨h2, p, hp⟩ := ih (off + 1) a0.supplierAID hdr ha
                simp only [pass2, hcap, if_true, hl, hr, consEv]
                exact ⟨h2, Event.article a0 :: p, by simp [hp]⟩
          · cases hr : h.articleRet { a0 with catalogGroupIDs := ids } with
            | some e =>
              simp [pass2, hcap, hl, hr] at ha
            | none =>
              simp only [pass2, hcap, if_true, hl, hr, consEv, List.mem_cons] at ha
              rcases ha with ha | ha
              · cases ha
              · obtain ⟨h2, p, hp⟩ := ih (off + 1) a0.supplierAID hdr ha
                simp only [pass2, hcap, if_true, hl, hr, consEv]
                exact ⟨h2, Event.article { a0 with catalogGroupIDs := ids } :: p, by simp [hp]⟩

theorem pass2_count_complete (h : Handler) (nA nC nG : Nat)
    (idx : List (String × List String)) :
    ∀ (toks : List Tok) (off : Nat) (last : String),
    countComplete (pass2 h nA nC nG idx toks off last).1 =
      if ((pass2 h nA nC nG idx toks off last).2.isNone && h.hasComplete) then 1 else 0 := by
  intro toks
  induction toks with
  | nil =>
    intro off last
    by_cases hc : h.hasComplete <;> simp [pass2, completionEvents, countComplete, hc]
  | cons t rest ih =>
    intro off last
    cases t with
    | tokErr m => simp [pass2, countComplete]
    | other => simpa [pass2] using ih (off + 1) last
    | startMap d => simpa [pass2] using ih (off + 1) last
    | startHeader d =>
      cases d with
      | error e => simp [pass2, countComplete]
      | ok h0 =>
        simp only [pass2]
        split
        · split
          · by_cases hc : h.hasComplete <;>
              simp [completionEvents, countComplete, hc]
          · simp only [consEv, countComplete]
            exact ih (off + 1) last
        · exact ih (off + 1) last
    | startCatalogStructure d =>
      cases d with
      | error e => simp [pass2, countComplete]
      | ok cg =>
        simp only [pass2]
        split
        · split
          · simp [countComplete]
          · simp only [consEv, countComplete]
            exact ih (off + 1) last
        · exact ih (off + 1) last
    | startClassificationGroup d =>
      cases d with
      | error e => simp [pass2, countComplete]
      | ok cg =>
        simp only [pass2]
        split
        · split
          · simp [countComplete]
          · simp only [consEv, countComplete]
            exact ih (off + 1) last
        · exact ih (off + 1) last
    | startArticle d =>
      cases d with
      | error e => simp [pass2, countComplete]
      | ok a0 =>
        simp only [pass2]
        split
        · split
          · simp [countComplete]
          · simp only [consEv, countComplete]
            exact ih (off + 1) a0.supplierAID
        · exact ih (off + 1) a0.supplierAID

/-- C1: for every well-formed document (decoded articles carry no group
list of their own, as the field is excluded from XML decoding), every
Article delivered to the article handler by the second pass of
Reader.Do carries exactly the group IDs of all mapping records naming
its supplier ID, in document order, whether the records appear before
or after the article; an article named by no record keeps the empty
list. -/
theorem C1_article_group_enrichment (doc : List Tok) (h : Handler)
    (hwf : ∀ d : Article, Tok.startArticle (Except.ok d) ∈ doc → d.catalogGroupIDs = [])
    (a : Article) (ha : Event.article a ∈ (Reader.Do h doc).1) :
    a.catalogGroupIDs = groupsFor doc a.supplierAID := by
  unfold Reader.Do at ha
  rcases hp : pass1 {} 0 doc with e | st
  · rw [hp] at ha
    simp at ha
  · rw [hp] at ha
    have hgrp := pass2_article_groups h st.numArticles st.numCatalogGroups st.numClassifGroups
      st.artToCatalogGroup doc 0 "" hwf a ha
    have hlk := (pass1_lookup doc {} 0 st hp a.supplierAID).1
    rw [hgrp, hlk]
    simp [indexLookup]

/-- C1 witness: in a document with one mapping before and one after the
article, the delivered article carries both group IDs in order. -/
theorem C1_article_group_enrichment_witness :
    Event.article { art0 with catalogGroupIDs := ["G1", "G2"] } ∈
      (Reader.Do allCapHandler docMapped).1 ∧
    ({ art0 with catalogGroupIDs := ["G1", "G2"] } : Article).catalogGroupIDs =
      groupsFor docMapped ({ art0 with catalogGroupIDs := ["G1", "G2"] } : Article).supplierAID := by
  have hmem : Event.article { art0 with catalogGroupIDs := ["G1", "G2"] } ∈
      (Reader.Do allCapHandler docMapped).1 := by decide
  refine ⟨hmem, C1_article_group_enrichment docMapped allCapHandler ?_ _ hmem⟩
  intro d hd
  simp only [docMapped, List.mem_cons, List.not_mem_nil, or_false] at hd
  rcases hd with hd | hd | hd | hd | hd <;> simp_all [art0]

/-- C2: every Header delivered by Reader.Do reports the number of
ARTICLE elements, the number of CATALOG_STRUCTURE elements, the number
of CLASSIFICATION_GROUP elements, and the number of distinct article
IDs named by mapping records (not the number of mapping records). -/
theorem C2_header_counters (doc : List Tok) (h : Handler) (hdr : Header)
    (ha : Event.header hdr ∈ (Reader.Do h doc).1) :
    hdr.numberOfArticles = countArticles doc ∧
    hdr.numberOfCatalogGroups = countCatalogStructures doc ∧
    hdr.numberOfClassificationGroups = countClassificationGroups doc ∧
    hdr.numberOfArticleToCatalogGroupMaps = (mapAids doc).toFinset.card := by
  unfold Reader.Do at ha
  rcases hp : pass1 {} 0 doc with e | st
  · rw [hp] at ha
    simp at ha
  · rw [hp] at ha
    have hc := pass2_header_counters h st.numArticles st.numCatalogGroups st.numClassifGroups
      st.artToCatalogGroup doc 0 "" hdr ha
    have hcnt := pass1_counts doc {} 0 st hp
    have hlen := pass1_index_length doc st hp
    refine ⟨?_, ?_, ?_, ?_⟩
    · rw [hc.1, hcnt.1]; simp
    · rw [hc.2.1, hcnt.2.1]; simp
    · rw [hc.2.2.1, hcnt.2.2]; simp
    · rw [hc.2.2.2, hlen]

/-- C2 witness: in a document with one article, one catalog structure
and two mapping records naming one distinct article, the delivered
header reports 1, 1, 0 and 1. -/
theorem C2_header_counters_witness :
    Event.header hdrMapped ∈ (Reader.Do allCapHandler docMapped).1 ∧
    countArticles docMapped = 1 ∧ countCatalogStructures docMapped = 1 ∧
    countClassificationGroups docMapped = 0 ∧ (mapAids docMapped).toFinset.card = 1 ∧
    hdrMapped.numberOfArticles = countArticles docMapped := by
  have hmem : Event.header hdrMapped ∈ (Reader.Do allCapHandler docMapped).1 := by decide
  refine ⟨hmem, by decide, by decide, by decide, by simp [docMapped, mapAids], ?_⟩
  exact (C2_header_counters docMapped allCapHandler _ hmem).1

/-- C3: the code contradicts the claim and its own HandleHeader doc
comment. A non-EOF error returned by the header handler is compared
only against io.EOF and otherwise dropped: the second pass continues
(the article handler and the completion notice still run) and Do
returns nil instead of the handler error. -/
theorem C3_header_error_swallowed :
    Reader.Do errHeaderHandler docHeaderArticle =
      ([Event.header { hdr0 with numberOfArticles := 1 }, Event.article art0, Event.complete],
       none) := by
  rfl

/-- C4: a handler whose header capability returns io.EOF stops the
second pass cleanly: Do returns nil and after the header event the
trace holds nothing but the completion notice (no article or group
handler runs). -/
theorem C4_header_eof_clean_stop (doc : List Tok) (h : Handler)
    (hH : h.hasHeader = true) (hret : ∀ x : Header, h.headerRet x = some GoErr.eof)
    (hdr : Header) (ha : Event.header hdr ∈ (Reader.Do h doc).1) :
    (Reader.Do h doc).2 = none ∧
    ∃ p rest, (Reader.Do h doc).1 = p ++ Event.header hdr :: rest ∧
      ∀ e ∈ rest, e = Event.complete := by
  unfold Reader.Do at ha ⊢
  rcases hp : pass1 {} 0 doc with e | st
  · rw [hp] at ha
    simp at ha
  · rw [hp] at ha
    obtain ⟨h2, p, hp2⟩ := pass2_eof_stops h st.numArticles st.numCatalogGroups
      st.numClassifGroups st.artToCatalogGroup hH hret doc 0 "" hdr ha
    exact ⟨h2, p, completionEvents h, hp2, fun e he => mem_completionEvents h e he⟩

/-- C4 witness: with a handler always answering io.EOF from the header
capability, the two-element document yields the header event, a nil
result and a trace ending in the completion notice only. -/
theorem C4_header_eof_clean_stop_witness :
    Event.header { hdr0 with numberOfArticles := 1 } ∈
      (Reader.Do eofHeaderHandler docHeaderArticle).1 ∧
    (Reader.Do eofHeaderHandler docHeaderArticle).2 = none ∧
    ∃ p rest, (Reader.Do eofHeaderHandler docHeaderArticle).1 =
        p ++ Event.header { hdr0 with numberOfArticles := 1 } :: rest ∧
      ∀ e ∈ rest, e = Event.complete := by
  have hmem : Event.header { hdr0 with numberOfArticles := 1 } ∈
      (Reader.Do eofHeaderHandler docHeaderArticle).1 := by decide
  exact ⟨hmem, C4_header_eof_clean_stop docHeaderArticle eofHeaderHandler rfl
    (fun _ => rfl) _ hmem⟩

/-- C10: Reader.Do fires the completion capability exactly once when it
returns nil (also after the sanctioned io.EOF stop from the header
handler) and never when it returns an error; with no completion
capability it never fires. -/
theorem C10_completion_exactly_once (doc : List Tok) (h : Handler) :
    countComplete (Reader.Do h doc).1 =
      if ((Reader.Do h doc).2.isNone && h.hasComplete) then 1 else 0 := by
  unfold Reader.Do
  rcases hp : pass1 {} 0 doc with e | st
  · simp [countComplete]
  · exact pass2_count_complete h st.numArticles st.numCatalogGroups st.numClassifGroups
      st.artToCatalogGroup doc 0 ""

theorem isPrefixOf_append_self (l t : List Char) : l.isPrefixOf (l ++ t) = true := by
  rw [List.isPrefixOf_iff_prefix]
  exact List.prefix_append l t

theorem drop_four_udx (nm : List Char) : ("UDX.".data ++ nm).drop 4 = nm := by
  have h4 : ("UDX.".data).length = 4 := rfl
  rw [← h4, List.drop_left]

theorem unmarshalAux_skip_start (n : List Char) (rest : List XTok)
    (h : ("UDX.".data).isPrefixOf n = false) :
    unmarshalUDXAux none (XTok.startEl n :: rest) = unmarshalUDXAux none rest := by
  simp [unmarshalUDXAux, h]

theorem unmarshal_marshal_field (f : UserDefinedExtensionField) (hraw : f.raw = false)
    (rest : List XTok) :
    unmarshalUDXAux none (marshalUDXField f ++ rest) =
      { name := f.name, value := f.value, innerXML := f.value, raw := false } ::
        unmarshalUDXAux none rest := by
  simp [marshalUDXField, hraw, unmarshalUDXAux, isPrefixOf_append_self, drop_four_udx]

theorem unmarshal_marshal_fields (fields : List UserDefinedExtensionField)
    (hraw : ∀ f ∈ fields, f.raw = false) :
    unmarshalUDXAux none ((fields.map marshalUDXField).flatten ++
        [XTok.endEl "USER_DEFINED_EXTENSIONS".data]) =
      fields.map (fun f =>
        { name := f.name, value := f.value, innerXML := f.value, raw := false }) := by
  induction fields with
  | nil => simp [unmarshalUDXAux]
  | cons f fs ih =>
    have hf : f.raw = false := hraw f (List.mem_cons_self _ _)
    have hfs : ∀ g ∈ fs, g.raw = false := fun g hg => hraw g (List.mem_cons_of_mem _ hg)
    simp only [List.map_cons, List.flatten_cons, List.append_assoc]
    rw [unmarshal_marshal_field f hf, ih hfs]

/-- C6: encoding the field SYSTEM.CUSTOM_FIELD1 with value A yields the
element UDX.SYSTEM.CUSTOM_FIELD1 with content A inside the wrapper, and
decoding that token stream recovers the name and value; in general,
decode after encode recovers name and value of every non-raw field (the
name being everything after the UDX. prefix of the element name), and a
child element whose name does not start with UDX. is skipped by the
decoder. -/
theorem C6_udx_roundtrip :
    (marshalUDX [sampleField] =
      [XTok.startEl "USER_DEFINED_EXTENSIONS".data,
       XTok.startEl "UDX.SYSTEM.CUSTOM_FIELD1".data,
       XTok.charData "A".data,
       XTok.endEl "UDX.SYSTEM.CUSTOM_FIELD1".data,
       XTok.endEl "USER_DEFINED_EXTENSIONS".data]) ∧
    (unmarshalUDX (marshalUDX [sampleField]) =
      [{ name := "SYSTEM.CUSTOM_FIELD1".data, value := "A".data, innerXML := "A".data,
         raw := false }]) ∧
    (∀ fields : List UserDefinedExtensionField, (∀ f ∈ fields, f.raw = false) →
      (unmarshalUDX (marshalUDX fields)).map (fun f => (f.name, f.value)) =
        fields.map (fun f => (f.name, f.value))) ∧
    (∀ (n : List Char) (rest : List XTok), ("UDX.".data).isPrefixOf n = false →
      unmarshalUDX (XTok.startEl n :: rest) = unmarshalUDX rest) := by
  refine ⟨by decide, by decide, ?_, ?_⟩
  · intro fields hraw
    unfold unmarshalUDX marshalUDX
    rw [unmarshalAux_skip_start _ _ (by decide), unmarshal_marshal_fields fields hraw]
    simp [List.map_map]
  · intro n rest h
    unfold unmarshalUDX
    exact unmarshalAux_skip_start n rest h

/-- C6 witness: the general round trip and the skip rule applied to the
sample field and to the wrapper element name. -/
theorem C6_udx_roundtrip_witness :
    (∀ f ∈ [sampleField], f.raw = false) ∧
    (unmarshalUDX (marshalUDX [sampleField])).map (fun f => (f.name, f.value)) =
      [sampleField].map (fun f => (f.name, f.value)) ∧
    ("UDX.".data).isPrefixOf "USER_DEFINED_EXTENSIONS".data = false ∧
    unmarshalUDX (XTok.startEl "USER_DEFINED_EXTENSIONS".data :: marshalUDXField sampleField) =
      unmarshalUDX (marshalUDXField sampleField) := by
  refine ⟨by simp [sampleField], ?_, by decide, ?_⟩
  · exact C6_udx_roundtrip.2.2.1 [sampleField] (by simp [sampleField])
  · exact C6_udx_roundtrip.2.2.2 _ _ (by decide)

/-- C7: NewDateTime returns nil on the zero instant; on a non-zero
instant located in UTC it returns a record whose timezone string is Z;
on a non-zero instant in any other location it returns a record whose
timezone string is the signed HH:MM rendering of that zone offset. -/
theorem C7_newDateTime_zones (typ : String) (dt : GoTime) :
    (dt.isZero = true → NewDateTime typ dt = none) ∧
    (dt.isZero = false → dt.loc = utc →
      NewDateTime typ dt = some ⟨typ, dt.formatDate, dt.formatClock, "Z"⟩) ∧
    (dt.isZero = false → dt.loc ≠ utc →
      NewDateTime typ dt =
        some ⟨typ, dt.formatDate, dt.formatClock, formatZoneOffset dt.loc.offsetSeconds⟩) := by
  refine ⟨?_, ?_, ?_⟩
  · intro h1
    simp [NewDateTime, h1]
  · intro h1 h2
    simp [NewDateTime, h1, h2]
  · intro h1 h2
    simp [NewDateTime, h1, h2]

/-- C7 witness: the zero instant yields nil; 2000-10-24 20:38:00 UTC
yields timezone Z; 2017-08-01 09:12:59 at offset -04:00 yields the
signed offset string, matching the repository test values. -/
theorem C7_newDateTime_zones_witness :
    zeroTime.isZero = true ∧ NewDateTime "generation_date" zeroTime = none ∧
    tUTCSample.isZero = false ∧ tUTCSample.loc = utc ∧
    NewDateTime "generation_date" tUTCSample =
      some ⟨"generation_date", "2000-10-24", "20:38:00", "Z"⟩ ∧
    tNonUTCSample.isZero = false ∧ tNonUTCSample.loc ≠ utc ∧
    NewDateTime "valid_start_date" tNonUTCSample =
      some ⟨"valid_start_date", "2017-08-01", "09:12:59", "-04:00"⟩ := by
  refine ⟨by decide, ?_, by decide, by decide, ?_, by decide, by decide, ?_⟩
  · exact (C7_newDateTime_zones "generation_date" zeroTime).1 (by decide)
  · rw [(C7_newDateTime_zones "generation_date" tUTCSample).2.1 (by decide) (by decide)]
    decide
  · rw [(C7_newDateTime_zones "valid_start_date" tNonUTCSample).2.2 (by decide) (by decide)]
    decide

theorem mem_classificationChunk (csOpt : Option ClassificationSystem)
    (cs : ClassificationSystem) :
    WItem.classificationSystemItem cs ∈ classificationChunk csOpt ↔
      csOpt = some cs ∧ cs.groups ≠ [] := by
  cases csOpt with
  | none => simp [classificationChunk]
  | some c =>
    simp only [classificationChunk, ClassificationSystem.IsBlank]
    by_cases hb : c.groups.isEmpty = true
    · rw [if_pos hb]
      rw [List.isEmpty_iff] at hb
      simp only [List.not_mem_nil, false_iff, not_and, ne_eq, Option.some_inj]
      intro hceq
      subst hceq
      simp [hb]
    · rw [if_neg hb]
      rw [List.isEmpty_iff] at hb
      constructor
      · intro hm
        have hm2 := List.mem_singleton.mp hm
        simp only [WItem.classificationSystemItem.injEq] at hm2
        subst hm2
        exact ⟨rfl, hb⟩
      · rintro ⟨hceq, _⟩
        obtain rfl : c = cs := Option.some.inj hceq
        exact List.mem_singleton.mpr rfl

theorem mem_groupSystemChunk (gcap : Option (Option GroupSystem)) (gs : GroupSystem) :
    WItem.groupSystemItem gs ∈ groupSystemChunk gcap ↔
      gcap = some (some gs) ∧ gs.structures ≠ [] := by
  match gcap with
  | none => simp [groupSystemChunk]
  | some none => simp [groupSystemChunk]
  | some (some g) =>
    simp only [groupSystemChunk, GroupSystem.IsBlank]
    by_cases hb : g.structures.isEmpty = true
    · rw [if_pos hb]
      rw [List.isEmpty_iff] at hb
      simp only [List.not_mem_nil, false_iff, not_and, ne_eq, Option.some_inj]
      intro hceq
      subst hceq
      simp [hb]
    · rw [if_neg hb]
      rw [List.isEmpty_iff] at hb
      constructor
      · intro hm
        have hm2 := List.mem_singleton.mp hm
        simp only [WItem.groupSystemItem.injEq] at hm2
        subst hm2
        exact ⟨rfl, hb⟩
      · rintro ⟨hceq, _⟩
        obtain rfl : g = gs := Option.some.inj (Option.some.inj hceq)
        exact List.mem_singleton.mpr rfl

theorem classification_not_in_headerChunk (cs : ClassificationSystem) (ho : Option Header) :
    WItem.classificationSystemItem cs ∉ headerChunk ho := by
  cases ho <;> simp [headerChunk]

theorem classification_not_in_groupSystemChunk (cs : ClassificationSystem)
    (gcap : Option (Option GroupSystem)) :
    WItem.classificationSystemItem cs ∉ groupSystemChunk gcap := by
  match gcap with
  | none => simp [groupSystemChunk]
  | some none => simp [groupSystemChunk]
  | some (some g) =>
    simp only [groupSystemChunk]
    split <;> simp

theorem classification_not_in_writeArticles (cs : ClassificationSystem) (d : CatalogDesc) :
    WItem.classificationSystemItem cs ∉ writeArticles d := by
  unfold writeArticles
  cases d.articles with
  | none => simp
  | some l =>
    intro hmem
    obtain ⟨a, _, ha⟩ := List.mem_map.mp hmem
    simp at ha

theorem groupSystem_not_in_headerChunk (gs : GroupSystem) (ho : Option Header) :
    WItem.groupSystemItem gs ∉ headerChunk ho := by
  cases ho <;> simp [headerChunk]

theorem groupSystem_not_in_classificationChunk (gs : GroupSystem)
    (csOpt : Option ClassificationSystem) :
    WItem.groupSystemItem gs ∉ classificationChunk csOpt := by
  cases csOpt with
  | none => simp [classificationChunk]
  | some c =>
    simp only [classificationChunk]
    split <;> simp

theorem groupSystem_not_in_writeArticles (gs : GroupSystem) (d : CatalogDesc) :
    WItem.groupSystemItem gs ∉ writeArticles d := by
  unfold writeArticles
  cases d.articles with
  | none => simp
  | some l =>
    intro hmem
    obtain ⟨a, _, ha⟩ := List.mem_map.mp hmem
    simp at ha

theorem mem_classification_writerDo (d : CatalogDesc) (cs : ClassificationSystem) :
    WItem.classificationSystemItem cs ∈ Writer.Do d ↔
      d.transaction = Transaction.NewCatalog ∧ d.classificationSystem = some cs ∧
        cs.groups ≠ [] := by
  unfold Writer.Do
  simp only [List.mem_cons, List.mem_append, List.not_mem_nil, or_false]
  constructor
  · intro hm
    rcases hm with hm | hm | hm | hm | hm | hm | hm
    · exact absurd hm (by simp)
    · exact absurd hm (classification_not_in_headerChunk cs d.header)
    · exact absurd hm (by simp)
    · unfold newCatalogChunk at hm
      by_cases htx : d.transaction = Transaction.NewCatalog
      · rw [if_pos htx] at hm
        rcases List.mem_append.mp hm with hm2 | hm2
        · have hc := (mem_classificationChunk _ _).mp hm2
          exact ⟨htx, hc.1, hc.2⟩
        · exact absurd hm2 (classification_not_in_groupSystemChunk cs d.groupSystemCap)
      · rw [if_neg htx] at hm
        simp at hm
    · exact absurd hm (classification_not_in_writeArticles cs d)
    · exact absurd hm (by simp)
    · exact absurd hm (by simp)
  · rintro ⟨htx, hcs, hne⟩
    refine Or.inr (Or.inr (Or.inr (Or.inl ?_)))
    unfold newCatalogChunk
    rw [if_pos htx]
    exact List.mem_append.mpr (Or.inl ((mem_classificationChunk _ _).mpr ⟨hcs, hne⟩))

theorem mem_groupSystem_writerDo (d : CatalogDesc) (gs : GroupSystem) :
    WItem.groupSystemItem gs ∈ Writer.Do d ↔
      d.transaction = Transaction.NewCatalog ∧ d.groupSystemCap = some (some gs) ∧
        gs.structures ≠ [] := by
  unfold Writer.Do
  simp only [List.mem_cons, List.mem_append, List.not_mem_nil, or_false]
  constructor
  · intro hm
    rcases hm with hm | hm | hm | hm | hm | hm | hm
    · exact absurd hm (by simp)
    · exact absurd hm (groupSystem_not_in_headerChunk gs d.header)
    · exact absurd hm (by simp)
    · unfold newCatalogChunk at hm
      by_cases htx : d.transaction = Transaction.NewCatalog
      · rw [if_pos htx] at hm
        rcases List.mem_append.mp hm with hm2 | hm2
        · exact absurd hm2 (groupSystem_not_in_classificationChunk gs d.classificationSystem)
        · have hc := (mem_groupSystemChunk _ _).mp hm2
          exact ⟨htx, hc.1, hc.2⟩
      · rw [if_neg htx] at hm
        simp at hm
    · exact absurd hm (groupSystem_not_in_writeArticles gs d)
    · exact absurd hm (by simp)
    · exact absurd hm (by simp)
  · rintro ⟨htx, hgs, hne⟩
    refine Or.inr (Or.inr (Or.inr (Or.inl ?_)))
    unfold newCatalogChunk
    rw [if_pos htx]
    exact List.mem_append.mpr (Or.inr ((mem_groupSystemChunk _ _).mpr ⟨hgs, hne⟩))

/-- C8: a supplied non-nil classification system with an empty group
list is never emitted by Writer.Do; any classification-system block
(and any catalog-group-system block) in the output occurs only for the
new-catalog transaction and only with a non-empty group list. -/
theorem C8_classification_emission (d : CatalogDesc) :
    (∀ cs : ClassificationSystem, d.classificationSystem = some cs → cs.groups = [] →
      WItem.classificationSystemItem cs ∉ Writer.Do d) ∧
    (∀ cs : ClassificationSystem, WItem.classificationSystemItem cs ∈ Writer.Do d →
      d.transaction = Transaction.NewCatalog ∧ cs.groups ≠ []) ∧
    (∀ gs : GroupSystem, WItem.groupSystemItem gs ∈ Writer.Do d →
      d.transaction = Transaction.NewCatalog ∧ gs.structures ≠ []) := by
  refine ⟨?_, ?_, ?_⟩
  · intro cs _ hempty hmem
    exact ((mem_classification_writerDo d cs).mp hmem).2.2 hempty
  · intro cs hmem
    have hc := (mem_classification_writerDo d cs).mp hmem
    exact ⟨hc.1, hc.2.2⟩
  · intro gs hmem
    have hc := (mem_groupSystem_writerDo d gs).mp hmem
    exact ⟨hc.1, hc.2.2⟩

/-- C8 witness: a new-catalog description supplying a non-nil
classification system with no groups never sees it in the output. -/
theorem C8_classification_emission_witness :
    descBlankCS.classificationSystem = some { name := "ECLASS", groups := [] } ∧
    ({ name := "ECLASS", groups := [] } : ClassificationSystem).groups = [] ∧
    WItem.classificationSystemItem { name := "ECLASS", groups := [] } ∉
      Writer.Do descBlankCS := by
  refine ⟨rfl, rfl, ?_⟩
  exact (C8_classification_emission descBlankCS).1 _ rfl rfl

/-- C9: the start accessors return the parsed instant of the first date
record bearing the start tag, with an absent time of day read as
midnight, and fall back to the 1970-01-01 start sentinel when the
record is absent or unparsable; the end accessors behave the same with
the end tag and the 2038-01-19 end sentinel, both on agreements and on
price-detail blocks. -/
theorem C9_date_sentinels :
    (∀ a : Agreement,
      (a.dates.find? (fun d => d.typ == DateTimeAgreementStartDate) = none →
        a.StartDate = DefaultStartDate) ∧
      (∀ d, a.dates.find? (fun d => d.typ == DateTimeAgreementStartDate) = some d →
        (∀ e, d.Time = Except.error e → a.StartDate = DefaultStartDate) ∧
        (∀ t, d.Time = Except.ok t → a.StartDate = t)) ∧
      (a.dates.find? (fun d => d.typ == DateTimeAgreementEndDate) = none →
        a.EndDate = DefaultEndDate) ∧
      (∀ d, a.dates.find? (fun d => d.typ == DateTimeAgreementEndDate) = some d →
        (∀ e, d.Time = Except.error e → a.EndDate = DefaultEndDate) ∧
        (∀ t, d.Time = Except.ok t → a.EndDate = t))) ∧
    (∀ apd : ArticlePriceDetails,
      (apd.dates.find? (fun d => d.typ == DateTimeValidStartDate) = none →
        apd.ValidStartDate = DefaultStartDate) ∧
      (∀ d, apd.dates.find? (fun d => d.typ == DateTimeValidStartDate) = some d →
        (∀ e, d.Time = Except.error e → apd.ValidStartDate = DefaultStartDate) ∧
        (∀ t, d.Time = Except.ok t → apd.ValidStartDate = t)) ∧
      (apd.dates.find? (fun d => d.typ == DateTimeValidEndDate) = none →
        apd.ValidEndDate = DefaultEndDate) ∧
      (∀ d, apd.dates.find? (fun d => d.typ == DateTimeValidEndDate) = some d →
        (∀ e, d.Time = Except.error e → apd.ValidEndDate = DefaultEndDate) ∧
        (∀ t, d.Time = Except.ok t → apd.ValidEndDate = t))) ∧
    (∀ dt : DateTime, dt.timeString = "" →
      dt.Time = parseFixedDateTime (dt.dateString ++ " " ++ "00:00:00")) := by
  refine ⟨?_, ?_, ?_⟩
  · intro a
    refine ⟨?_, ?_, ?_, ?_⟩
    · intro hf
      simp [Agreement.StartDate, hf]
    · intro d hf
      exact ⟨fun e he => by simp [Agreement.StartDate, hf, he],
             fun t ht => by simp [Agreement.StartDate, hf, ht]⟩
    · intro hf
      simp [Agreement.EndDate, hf]
    · intro d hf
      exact ⟨fun e he => by simp [Agreement.EndDate, hf, he],
             fun t ht => by simp [Agreement.EndDate, hf, ht]⟩
  · intro apd
    refine ⟨?_, ?_, ?_, ?_⟩
    · intro hf
      simp [ArticlePriceDetails.ValidStartDate, hf]
    · intro d hf
      exact ⟨fun e he => by simp [ArticlePriceDetails.ValidStartDate, hf, he],
             fun t ht => by simp [ArticlePriceDetails.ValidStartDate, hf, ht]⟩
    · intro hf
      simp [ArticlePriceDetails.ValidEndDate, hf]
    · intro d hf
      exact ⟨fun e he => by simp [ArticlePriceDetails.ValidEndDate, hf, he],
             fun t ht => by simp [ArticlePriceDetails.ValidEndDate, hf, ht]⟩
  · intro dt h
    simp [DateTime.Time, h]

/-- C9 witness: an agreement with a start date lacking a time of day
parses to midnight of that date, and its absent end date yields the
2038-01-19 sentinel. -/
theorem C9_date_sentinels_witness :
    agSample.dates.find? (fun d => d.typ == DateTimeAgreementStartDate) =
      some { typ := "agreement_start_date", dateString := "2017-08-01" } ∧
    ({ typ := "agreement_start_date", dateString := "2017-08-01" } : DateTime).Time =
      (Except.ok ⟨2017, 8, 1, 0, 0, 0, utc⟩ : Except String GoTime) ∧
    agSample.StartDate = (⟨2017, 8, 1, 0, 0, 0, utc⟩ : GoTime) ∧
    agSample.dates.find? (fun d => d.typ == DateTimeAgreementEndDate) = none ∧
    agSample.EndDate = DefaultEndDate := by
  refine ⟨by decide, by decide, ?_, by decide, ?_⟩
  · exact ((C9_date_sentinels.1 agSample).2.1
      ({ typ := "agreement_start_date", dateString := "2017-08-01" } : DateTime)
      (by decide)).2 (⟨2017, 8, 1, 0, 0, 0, utc⟩ : GoTime) (by decide)
  · exact (C9_date_sentinels.1 agSample).2.2.1 (by decide)

end Bmecat
